import Mathlib

/-!
A shallow embedding of the tab codec and remote-client logic of
`src/qlik/qlik.py` and `src/qlik/qlik_script.py` (class `QlikScript`),
together with proofs about the embedded operations.

Strings are modelled by Lean `String` / `List Char` (Python `str` is a
sequence of unicode code points, as is `String.data`).  Python's
whitespace and `\s` are modelled on their ASCII part, which is all the
claims exercise.  The filesystem directory of per-tab `.qvs` files is
modelled as an association list from filename stem to file content, and
the HTTP layer is modelled by passing each endpoint's decoded response
(or a transport error) as an explicit argument.
-/

/-- ASCII part of Python `str.strip()` whitespace (also of the regex class
`\s`): space, tab, newline, carriage return, vertical tab, form feed. -/
def isPySpace (c : Char) : Bool :=
  c = ' ' || c = '\t' || c = '\n' || c = '\r' || c = '\x0b' || c = '\x0c'

/-- Python `str.lstrip()` on a list of characters. -/
def pyLstrip (l : List Char) : List Char := l.dropWhile isPySpace

/-- Python `str.rstrip()` on a list of characters. -/
def pyRstrip (l : List Char) : List Char := (l.reverse.dropWhile isPySpace).reverse

/-- Python `str.strip()` on a list of characters. -/
def pyStripL (l : List Char) : List Char := pyRstrip (pyLstrip l)

/-- Python `str.strip()`. -/
def pyStripS (s : String) : String := ⟨pyStripL s.data⟩

/-- Python `str.rstrip()`. -/
def pyRstripS (s : String) : String := ⟨pyRstrip s.data⟩

/-- Python `content.replace('\r\n', '\r')`: leftmost non-overlapping
occurrences of the two-character pattern collapse to `'\r'`. -/
def replaceCRLF : List Char → List Char
  | '\r' :: '\n' :: rest => '\r' :: replaceCRLF rest
  | c :: rest => c :: replaceCRLF rest
  | [] => []

/-- One character of Python `content.replace('\n', '\r')`. -/
def lfToCr (c : Char) : Char := if c = '\n' then '\r' else c

/-- Line-ending normalization used by `save_tabs_as_qvs_files` (line 187),
`combine_tabs_from_files` (line 252) and `get_app_script_tabbed`
(line 301): `content.replace('\r\n', '\r').replace('\n', '\r')`. -/
def normalizeL (l : List Char) : List Char := (replaceCRLF l).map lfToCr

/-- String form of `normalizeL`. -/
def normalizeS (s : String) : String := ⟨normalizeL s.data⟩

/-- The character class of `re.sub(r'[<>:"/\\|?*]', '_', name)`. -/
def pyUnsafeChar (c : Char) : Bool :=
  c = '<' || c = '>' || c = ':' || c = '"' || c = '/' || c = '\\' || c = '|' || c = '?' || c = '*'

/-- One character of the filename sanitization `re.sub(r'[<>:"/\\|?*]', '_', name)`. -/
def sanitizeChar (c : Char) : Char := if pyUnsafeChar c then '_' else c

/-- `re.sub(r'[<>:"/\\|?*]', '_', name)` on a list of characters. -/
def sanitizeL (l : List Char) : List Char := l.map sanitizeChar

/-- `re.sub(r'[<>:"/\\|?*]', '_', name)`. -/
def sanitizeS (s : String) : String := ⟨sanitizeL s.data⟩

/-- Python `str.upper()` (ASCII part). -/
def pyUpperS (s : String) : String := ⟨s.data.map Char.toUpper⟩

/-! ## The tab-marker regex `///\$tab\s+([^\r\n]+)` (line 127) -/

/-- The literal part `///$tab` of the tab-marker pattern. -/
def tabMarkerLit : List Char := ['/', '/', '/', '$', 't', 'a', 'b']

/-- The character class `[^\r\n]`. -/
def notCRLF (c : Char) : Bool := !(c = '\r' || c = '\n')

/-- Backtracking of the greedy `\s+` of the pattern: with `w` the length of
the maximal run of `\s` characters after the literal, the group start is the
largest offset `k ∈ [1, w]` such that a character exists at offset `k` and is
in `[^\r\n]` (called with the maximal run length; offsets below `k` are all
`\s` characters by construction). -/
def findGroupStart (rest : List Char) : Nat → Option Nat
  | 0 => none
  | k + 1 =>
    match rest[k + 1]? with
    | some c => if notCRLF c then some (k + 1) else findGroupStart rest k
    | none => findGroupStart rest k

/-- Match `///\$tab\s+([^\r\n]+)` at the head of `l`.  On success returns
`(g, name)` where `g` is the offset of the captured group from the start of
the match and `name` the greedily captured group; the match ends at offset
`g + name.length`. -/
def matchMarkerHere (l : List Char) : Option (Nat × List Char) :=
  if l.take 7 = tabMarkerLit then
    let rest := l.drop 7
    match findGroupStart rest (rest.takeWhile isPySpace).length with
    | some k => some (7 + k, (rest.drop k).takeWhile notCRLF)
    | none => none
  else none

/-- One marker match of `re.finditer`: `mstart = match.start()`,
`name = match.group(1)`, `mend = match.end()`. -/
structure Marker where
  mstart : Nat
  name : List Char
  mend : Nat
deriving DecidableEq

/-- `re.finditer(tab_pattern, script)` scanning from position `pos`:
leftmost matches, non-overlapping, resuming after each match's end.  The
fuel argument only bounds the recursion; `s.length + 1` is always enough
because every step advances the position. -/
def findMarkersAux (s : List Char) : Nat → Nat → List Marker
  | 0, _ => []
  | fuel + 1, pos =>
    if s.length ≤ pos then []
    else
      match matchMarkerHere (s.drop pos) with
      | some (g, name) =>
        { mstart := pos, name := name, mend := pos + g + name.length } ::
          findMarkersAux s fuel (pos + g + name.length)
      | none => findMarkersAux s fuel (pos + 1)

/-- `matches = list(re.finditer(tab_pattern, script))` (line 130). -/
def findMarkersL (s : List Char) : List Marker := findMarkersAux s (s.length + 1) 0

/-! ## `parse_script_tabs` (lines 116-158) -/

/-- The key `f"{i}___{tab_name}"` of the `i`-th matched tab (line 146). -/
def keyOfTab (i : Nat) (name : List Char) : List Char :=
  (Nat.repr i).data ++ '_' :: '_' :: '_' :: name

/-- The loop of lines 144-156: the `i`-th marker contributes key
`f"{i}___{name}"` and content `script[match.end() : next.start()].strip()`
(to the end of the script for the last marker). -/
def tabsFromMarkers (s : List Char) : Nat → List Marker → List (List Char × List Char)
  | _, [] => []
  | i, [m] => [(keyOfTab i m.name, pyStripL (s.drop m.mend))]
  | i, m :: m2 :: rest =>
    (keyOfTab i m.name, pyStripL ((s.drop m.mend).take (m2.mstart - m.mend))) ::
      tabsFromMarkers s (i + 1) (m2 :: rest)

/-- `parse_script_tabs` on a list of characters.  The Python dict preserves
insertion order, so it is modelled by an association list: `"Main"` first
(when a match exists, only if the text before the first marker strips to
non-empty), then one entry per marker.  The indexed keys are pairwise
distinct and distinct from `"Main"`, so the list is a faithful dict model. -/
def parseScriptTabsL (s : List Char) : List (List Char × List Char) :=
  match findMarkersL s with
  | [] => [("Main".data, pyStripL s)]
  | m :: ms =>
    (if pyStripL (s.take m.mstart) = [] then []
     else [("Main".data, pyStripL (s.take m.mstart))]) ++
      tabsFromMarkers s 0 (m :: ms)

/-- `parse_script_tabs` (lines 116-158). -/
def parse_script_tabs (s : String) : List (String × String) :=
  (parseScriptTabsL s.data).map fun p => (⟨p.1⟩, ⟨p.2⟩)

/-! ## `save_tabs_as_qvs_files` (lines 161-195) -/

/-- Writing one file into the directory: overwrites an existing file of the
same name, otherwise appends.  The directory is an association list from
filename stem to content. -/
def writeFile (dir : List (String × String)) (name content : String) : List (String × String) :=
  if dir.any (fun f => f.1 = name) then
    dir.map fun f => if f.1 = name then (name, content) else f
  else dir ++ [(name, content)]

/-- The loop of lines 181-193 over `tabs.items()`: filename stem
`re.sub(r'[<>:"/\\|?*]', '_', tab_name)`, content normalized to
carriage-return-only line endings. -/
def saveTabsAux (dir : List (String × String)) : List (String × String) → List (String × String)
  | [] => dir
  | t :: rest => saveTabsAux (writeFile dir (sanitizeS t.1) (normalizeS t.2)) rest

/-- `save_tabs_as_qvs_files` (lines 161-195), modelled as the resulting
directory contents (stem ↦ file content), starting from the empty directory
(the `get` command empties the directory before fetching). -/
def save_tabs_as_qvs_files (tabs : List (String × String)) : List (String × String) :=
  saveTabsAux [] tabs

/-! ## Sorting of the per-tab files -/

/-- Python string `<=`: lexicographic on code points. -/
def pyStrLe : List Char → List Char → Bool
  | [], _ => true
  | _ :: _, [] => false
  | a :: as, b :: bs =>
    if a.toNat < b.toNat then true else if b.toNat < a.toNat then false else pyStrLe as bs

/-- Stable insertion: place `x` before the first element `y` with `le x y`. -/
def orderedInsertB (le : α → α → Bool) (x : α) : List α → List α
  | [] => [x]
  | y :: ys => if le x y then x :: y :: ys else y :: orderedInsertB le x ys

/-- A stable sort with a boolean comparison, modelling Python's stable
`sorted`.  (A stable sort's output is uniquely determined by the key order,
so insertion sort is an exact model of Python's mergesort-based `sorted`.) -/
def pySorted (le : α → α → Bool) : List α → List α
  | [] => []
  | x :: xs => orderedInsertB le x (pySorted le xs)

/-- The sort key `x.stem[:3] if len(x.stem) >= 3 else x.stem` of lines 238
and 286 (the conditional is kept although Python slicing makes it redundant). -/
def sortKey3 (f : String × String) : List Char :=
  if 3 ≤ f.1.data.length then f.1.data.take 3 else f.1.data

/-- Comparison of `sorted(..., reverse=True)` on `sortKey3` (line 238):
stable descending, i.e. `a` may precede `b` iff `key b <= key a`. -/
def combineDescLe (a b : String × String) : Bool := pyStrLe (sortKey3 b) (sortKey3 a)

/-- Comparison of `sorted(..., reverse=False)` on `sortKey3` (line 286). -/
def combineAscLe (a b : String × String) : Bool := pyStrLe (sortKey3 a) (sortKey3 b)

/-- `ordered_files` of `combine_tabs_from_files` when `tab_order` is `None`
(line 238): `sorted(qvs_files, key=lambda x: x.stem[:3] ..., reverse=True)`. -/
def combineDefaultOrdered (files : List (String × String)) : List (String × String) :=
  pySorted combineDescLe files

/-- `ordered_files` of `get_app_script_tabbed` (line 286):
`sorted(qvs_files, key=lambda x: x.stem[:3] ..., reverse=False)`. -/
def getOrderedFiles (files : List (String × String)) : List (String × String) :=
  pySorted combineAscLe files

/-! ## `combine_tabs_from_files` (lines 198-261) -/

/-- `file_dict[tab_name]` where `file_dict = {f.stem: f for f in qvs_files}`
(line 227): the last file with the given stem, if any. -/
def fileDict (files : List (String × String)) (stem : String) : Option (String × String) :=
  files.foldl (fun acc f => if f.1 = stem then some f else acc) none

/-- Lines 226-235: order the files by an explicit `tab_order`, appending the
files not named in it, in directory order. -/
def resolveTabOrder (order : List String) (files : List (String × String)) : List (String × String) :=
  let ordered := order.filterMap (fileDict files)
  ordered ++ files.filter (fun f => decide (f ∉ ordered))

/-- Errors raised by the embedded Python code. -/
inductive PyErr where
  | valueError (msg : String)
  | httpError (status : Nat)
  | indexError
deriving DecidableEq

/-- Lines 242-259, one file: read, strip, skip if empty, normalize line
endings, then emit the content unmarked when the stem is `"Main"` and the
file is the first of `ordered_files` (`ordered_files.index(qvs_file) == 0`,
i.e. it equals the head), else emit `f"///$tab {tab_name}\r{content}"` with
`tab_name` the full stem. -/
def combineRenderPart (headF : Option (String × String)) (f : String × String) : Option String :=
  let content := pyStripS f.2
  if content = "" then none
  else
    let c := normalizeS content
    if f.1 = "Main" ∧ some f = headF then some c
    else some ("///$tab " ++ f.1 ++ "\r" ++ c)

/-- The `combined_script` list built by the loop of lines 240-259. -/
def combineRenderList (ordered : List (String × String)) : List String :=
  ordered.filterMap (combineRenderPart ordered.head?)

/-- `combine_tabs_from_files` (lines 198-261) as a function of the directory
contents and the optional `tab_order`; returns `'\r\r'.join(combined_script)`. -/
def combine_tabs_from_files (files : List (String × String)) (tabOrder : Option (List String)) :
    Except PyErr String :=
  if files = [] then .error (.valueError "No .qvs files found")
  else
    let ordered :=
      match tabOrder with
      | some order => resolveTabOrder order files
      | none => combineDefaultOrdered files
    .ok (String.intercalate "\r\r" (combineRenderList ordered))

/-! ## `get_app_script_tabbed` (lines 274-306) -/

/-- Python `tab_name.split('___')`: split on leftmost non-overlapping
occurrences of the three-character separator. -/
def pySplitTripleUnd : List Char → List (List Char)
  | '_' :: '_' :: '_' :: rest => [] :: pySplitTripleUnd rest
  | c :: rest =>
    match pySplitTripleUnd rest with
    | [] => [[c]]
    | g :: gs => (c :: g) :: gs
  | [] => [[]]

/-- Whether a stem contains the `'___'` separator (so that
`stem.split('___')` has at least two fields). -/
def hasTripleUnd : List Char → Bool
  | '_' :: '_' :: '_' :: _ => true
  | _ :: rest => hasTripleUnd rest
  | [] => false

/-- Lines 289-303, one file: read, `rstrip`, skip if empty, normalize line
endings, and emit `f"///$tab {tab_name.split('___')[1]}\r{content}"`.  The
index `[1]` raises `IndexError` when the stem has no `'___'` separator. -/
def getRenderPart (f : String × String) : Except PyErr (Option String) :=
  let content := pyRstripS f.2
  if content = "" then .ok none
  else
    match pySplitTripleUnd f.1.data with
    | _ :: second :: _ =>
      .ok (some ("///$tab " ++ (⟨second⟩ : String) ++ "\r" ++ normalizeS content))
    | _ => .error .indexError

/-- The `combined_parts` loop of lines 288-303, stopping at the first
raised error. -/
def getPartsList : List (String × String) → Except PyErr (List String)
  | [] => .ok []
  | f :: rest =>
    match getRenderPart f with
    | .error e => .error e
    | .ok none => getPartsList rest
    | .ok (some p) =>
      match getPartsList rest with
      | .error e => .error e
      | .ok ps => .ok (p :: ps)

/-- `get_app_script_tabbed` (lines 274-306) as a function of the directory
contents. -/
def get_app_script_tabbed (files : List (String × String)) : Except PyErr String :=
  if files = [] then .error (.valueError "No .qvs files found")
  else
    match getPartsList (getOrderedFiles files) with
    | .error e => .error e
    | .ok parts => .ok (String.intercalate "\r\r" parts)

/-! ## `get_app_by_name` (lines 23-65) -/

/-- One entry of the `/items` response's `data` array, with the fields the
code reads. -/
structure CatalogApp where
  name : String
  resourceId : String
  itemId : String
  spaceId : String
deriving DecidableEq

/-- The `app_dict` built on lines 53-63. -/
structure AppInfo where
  sanitizedAppName : String
  appName : String
  appId : String
  appItemId : String
  spaceId : String
  spaceType : Option String
  spaceName : Option String
deriving DecidableEq

/-- The `multiple_apps` accumulator of lines 40-42:
`f"\n{app['name']} ({app['resourceId']})"` concatenated over all entries. -/
def multipleAppsStr (data : List CatalogApp) : String :=
  data.foldl (fun acc app => acc ++ "\n" ++ app.name ++ " (" ++ app.resourceId ++ ")") ""

/-- The exact message of the `ValueError` raised on lines 45-49 (the
triple-quoted f-string, whitespace included). -/
def ambiguousMessage (appName : String) (data : List CatalogApp) : String :=
  "Multiple apps found similar or equal to ´" ++ appName ++
    "´. \n            Please provide more specific app_name or bothapp_name & app_id to disambiguate.\n            Available apps: \n            " ++
    multipleAppsStr data ++ "\n            "

/-- `get_app_by_name` (lines 23-65) as a function of the decoded `/items`
response data.  `appId` only changes the request URL (line 29), not the
handling of the response; `spaceLookup` models `get_space_type`, returning
the space's type and name. -/
def get_app_by_name (appName : String) (appId : Option String) (responseData : List CatalogApp)
    (spaceLookup : String → String × String) : Except PyErr AppInfo :=
  if responseData = [] then .error (.valueError ("No app found with name " ++ appName))
  else if 1 < responseData.length then
    .error (.valueError (ambiguousMessage appName responseData))
  else
    match responseData with
    | [] => .error (.valueError ("No app found with name " ++ appName))
    | app :: _ =>
      .ok { sanitizedAppName := sanitizeS app.name
            appName := app.name
            appId := app.resourceId
            appItemId := app.itemId
            spaceId := app.spaceId
            spaceType := if 0 < app.spaceId.length then some (spaceLookup app.spaceId).1 else none
            spaceName := if 0 < app.spaceId.length then some (spaceLookup app.spaceId).2 else none }

/-! ## `reload_app` (lines 323-337) -/

/-- `requests.Response.raise_for_status()`: raises for status codes in
`[400, 600)`. -/
def raiseForStatus (status : Nat) : Except PyErr Unit :=
  if 400 ≤ status ∧ status < 600 then .error (.httpError status) else .ok ()

/-- `reload_app` (lines 323-337) as a function of the POST response:
`raise_for_status`, then `reload_data.get("id")` — returned as-is, absent
or not.  (App resolution by `get_app_by_name` happens before the POST and
is modelled separately.) -/
def reload_app (postStatus : Nat) (respId : Option String) : Except PyErr (Option String) :=
  match raiseForStatus postStatus with
  | .error e => .error e
  | .ok _ => .ok respId

/-! ## `stream_reload_log` (lines 355-423) -/

/-- One update yielded by the generator. -/
structure ReloadUpdate where
  log : String
  status : String
  is_new : Bool
  is_complete : Bool
deriving DecidableEq

/-- One poll of `get_reload_log`: either the decoded `status` and cumulative
`log` fields, or a raised transport error with message `msg`. -/
inductive PollResult where
  | ok (status log : String)
  | err (msg : String)
deriving DecidableEq

/-- The terminal-status test
`current_status in ["SUCCEEDED", "FAILED", "CANCELLED"]` applied to the
uppercased raw status (lines 377, 387, 396, 403). -/
def statusTerminal (status : String) : Bool :=
  pyUpperS status = "SUCCEEDED" || pyUpperS status = "FAILED" || pyUpperS status = "CANCELLED"

/-- The `yield_data` dictionary built on lines 377-404 from the loop state
`last_log_length` and the poll's `status` and `log` fields. -/
def mkYieldData (clearOnUpdate : Bool) (lastLogLength : Nat) (status logContent : String) :
    ReloadUpdate :=
  let currentStatus := pyUpperS status
  let isComplete := statusTerminal status
  let isNew := decide (lastLogLength < logContent.length)
  if clearOnUpdate then
    { log := logContent, status := currentStatus, is_new := isNew, is_complete := isComplete }
  else if isNew then
    { log := ⟨logContent.data.drop lastLogLength⟩, status := currentStatus,
      is_new := true, is_complete := isComplete }
  else
    { log := "", status := currentStatus, is_new := false, is_complete := isComplete }

/-- The `while True` loop of lines 374-423, from an arbitrary loop state
`lastLogLength`, consuming one poll result per iteration: an exception
yields the synthetic terminal update and breaks (lines 416-423); otherwise
`yield_data` is yielded, `last_log_length` is advanced when the log grew,
and a terminal status breaks.  The list of observed polls is finite; the
updates of those polls are returned. -/
def streamAux (clearOnUpdate : Bool) (lastLogLength : Nat) : List PollResult → List ReloadUpdate
  | [] => []
  | .err msg :: _ =>
    [{ log := "Error polling reload status: " ++ msg ++ "\n", status := "ERROR",
       is_new := true, is_complete := true }]
  | .ok status logContent :: rest =>
    let u := mkYieldData clearOnUpdate lastLogLength status logContent
    let newLast := if lastLogLength < logContent.length then logContent.length else lastLogLength
    if u.is_complete then [u] else u :: streamAux clearOnUpdate newLast rest

/-- `stream_reload_log` (lines 355-423) as a function of the successive poll
results. -/
def stream_reload_log (clearOnUpdate : Bool) (polls : List PollResult) : List ReloadUpdate :=
  streamAux clearOnUpdate 0 polls

/-! ## Spec-side definitions

These follow the specification's words, for comparison with the embedded
code (refinement claims C1 and C3). -/

/-- Modelled from the spec: "the key's substring after its first `___`
separator" (§4.3).  Returns the key unchanged when no separator exists. -/
def dropThroughSep : List Char → Option (List Char)
  | '_' :: '_' :: '_' :: rest => some rest
  | _ :: rest => dropThroughSep rest
  | [] => none

/-- Modelled from the spec: the marker name with the index prefix removed. -/
def specTabName (key : List Char) : List Char := (dropThroughSep key).getD key

/-- Modelled from the spec (claim C1): the text equal to the original script
"modulo per-tab whitespace trimming, line-ending normalization to
carriage-return-only, and index-prefix removal" — the split tabs in their
original order, the `Main` tab unmarked, every other tab as
`///$tab <name-without-index-prefix>\r<content>`, joined by `\r\r`. -/
def specReconstruction (s : String) : String :=
  String.intercalate "\r\r" ((parse_script_tabs s).map fun t =>
    if t.1 = "Main" then normalizeS t.2
    else "///$tab " ++ (⟨specTabName t.1.data⟩ : String) ++ "\r" ++ normalizeS t.2)

/-- The marked fragment `///$tab <full key>\r<content>` that
`combine_tabs_from_files` actually emits for a (split-produced, hence
already stripped) tab, skipping empty tabs. -/
def specMarkedFull (t : String × String) : Option String :=
  if t.2 = "" then none
  else some ("///$tab " ++ t.1 ++ "\r" ++ normalizeS t.2)

/-- The reconstruction `combine_tabs_from_files` actually performs on a
split-produced tab collection: the `Main` tab's content first and unmarked
(when present; omitted if empty), then the remaining tabs in reverse
(descending-index) order, each as `///$tab <full key>\r<content>`, joined
by `\r\r`. -/
def descendingRender (tabs : List (String × String)) : String :=
  match tabs with
  | [] => ""
  | t :: rest =>
    if t.1 = "Main" then
      String.intercalate "\r\r"
        ((if t.2 = "" then [] else [normalizeS t.2]) ++ rest.reverse.filterMap specMarkedFull)
    else
      String.intercalate "\r\r" ((t :: rest).reverse.filterMap specMarkedFull)

/-! ## Helper lemmas -/

theorem mkYieldData_is_complete (clearOnUpdate : Bool) (lastLogLength : Nat)
    (status logContent : String) :
    (mkYieldData clearOnUpdate lastLogLength status logContent).is_complete =
      statusTerminal status := by
  cases clearOnUpdate <;> by_cases h : lastLogLength < logContent.length <;>
    simp [mkYieldData, h]

theorem pyStrLe_total (a : List Char) : ∀ b, pyStrLe a b = true ∨ pyStrLe b a = true := by
  induction a with
  | nil => intro b; left; rfl
  | cons x xs ih =>
    intro b
    cases b with
    | nil => right; rfl
    | cons y ys =>
      rcases Nat.lt_trichotomy x.toNat y.toNat with h | h | h
      · left; simp [pyStrLe, h]
      · have h1 : ¬ x.toNat < y.toNat := by omega
        have h2 : ¬ y.toNat < x.toNat := by omega
        simpa [pyStrLe, h1, h2] using ih ys
      · right; simp [pyStrLe, h]

theorem pyStrLe_trans (a : List Char) :
    ∀ b c, pyStrLe a b = true → pyStrLe b c = true → pyStrLe a c = true := by
  induction a with
  | nil => intro b c _ _; rfl
  | cons x xs ih =>
    intro b c hab hbc
    cases b with
    | nil => simp [pyStrLe] at hab
    | cons y ys =>
      cases c with
      | nil => simp [pyStrLe] at hbc
      | cons z zs =>
        simp only [pyStrLe] at hab hbc ⊢
        split_ifs at hab hbc ⊢ <;> first
          | rfl
          | omega
          | exact ih ys zs hab hbc

theorem orderedInsertB_perm (le : α → α → Bool) (x : α) :
    ∀ l : List α, (orderedInsertB le x l).Perm (x :: l) := by
  intro l
  induction l with
  | nil => exact List.Perm.refl _
  | cons y ys ih =>
    by_cases h : le x y
    · simp [orderedInsertB, h]
    · simp only [orderedInsertB, h, if_neg, Bool.false_eq_true, ite_false]
      exact (ih.cons y).trans (List.Perm.swap x y ys)

theorem pySorted_perm (le : α → α → Bool) : ∀ l : List α, (pySorted le l).Perm l := by
  intro l
  induction l with
  | nil => exact List.Perm.refl _
  | cons x xs ih => exact (orderedInsertB_perm le x (pySorted le xs)).trans (ih.cons x)

theorem mem_orderedInsertB (le : α → α → Bool) (x a : α) (l : List α) :
    a ∈ orderedInsertB le x l ↔ a = x ∨ a ∈ l := by
  rw [(orderedInsertB_perm le x l).mem_iff, List.mem_cons]

theorem orderedInsertB_pairwise (le : α → α → Bool)
    (htot : ∀ a b, le a b = true ∨ le b a = true)
    (htr : ∀ a b c, le a b = true → le b c = true → le a c = true)
    (x : α) :
    ∀ l : List α, l.Pairwise (fun a b => le a b = true) →
      (orderedInsertB le x l).Pairwise (fun a b => le a b = true) := by
  intro l
  induction l with
  | nil => intro _; simp [orderedInsertB]
  | cons y ys ih =>
    intro hp
    rcases List.pairwise_cons.1 hp with ⟨hy, hys⟩
    by_cases h : le x y
    · simp only [orderedInsertB, h, ite_true]
      refine List.pairwise_cons.2 ⟨?_, hp⟩
      intro z hz
      rcases List.mem_cons.1 hz with rfl | hz
      · exact h
      · exact htr x y z h (hy z hz)
    · simp only [orderedInsertB, h, Bool.false_eq_true, ite_false]
      refine List.pairwise_cons.2 ⟨?_, ih hys⟩
      intro z hz
      rcases (mem_orderedInsertB le x z ys).1 hz with hzx | hz
      · rw [hzx]
        rcases htot x y with hxy | hyx
        · exact absurd hxy h
        · exact hyx
      · exact hy z hz

theorem pySorted_pairwise (le : α → α → Bool)
    (htot : ∀ a b, le a b = true ∨ le b a = true)
    (htr : ∀ a b c, le a b = true → le b c = true → le a c = true) :
    ∀ l : List α, (pySorted le l).Pairwise (fun a b => le a b = true) := by
  intro l
  induction l with
  | nil => simp [pySorted]
  | cons x xs ih => exact orderedInsertB_pairwise le htot htr x (pySorted le xs) ih


/-! ## Claims -/

/-- C6: if the cumulative reload log observed across three successive polls
grows from empty to `"line1\n"` to `"line1\nline2\n"` (no further growth at
the third poll), then delta-mode streaming (`clear_on_update` false) yields
three updates whose `log` fields are `"line1\n"`, `"line2\n"`, `""`, while
whole-mode streaming (`clear_on_update` true) yields the full cumulative
log on every iteration. -/
theorem claim_C6 (s1 s2 s3 : String)
    (h1 : statusTerminal s1 = false) (h2 : statusTerminal s2 = false) :
    (stream_reload_log false
        [.ok s1 "line1\n", .ok s2 "line1\nline2\n", .ok s3 "line1\nline2\n"]).map
      ReloadUpdate.log = ["line1\n", "line2\n", ""] ∧
    (stream_reload_log true
        [.ok s1 "line1\n", .ok s2 "line1\nline2\n", .ok s3 "line1\nline2\n"]).map
      ReloadUpdate.log = ["line1\n", "line1\nline2\n", "line1\nline2\n"] := by
  have e1 : ("line1\n" : String).length = 6 := rfl
  have e2 : ("line1\nline2\n" : String).length = 12 := rfl
  constructor <;>
  · simp only [stream_reload_log, streamAux, mkYieldData_is_complete, h1, h2, e1, e2,
      Bool.false_eq_true, if_false, ite_self]
    simp only [mkYieldData, statusTerminal, e1, e2]
    norm_num

/-- C6 witness at concrete non-terminal statuses. -/
theorem claim_C6_witness :
    (stream_reload_log false
        [.ok "RUNNING" "line1\n", .ok "RUNNING" "line1\nline2\n",
         .ok "RUNNING" "line1\nline2\n"]).map
      ReloadUpdate.log = ["line1\n", "line2\n", ""] ∧
    (stream_reload_log true
        [.ok "RUNNING" "line1\n", .ok "RUNNING" "line1\nline2\n",
         .ok "RUNNING" "line1\nline2\n"]).map
      ReloadUpdate.log = ["line1\n", "line1\nline2\n", "line1\nline2\n"] :=
  claim_C6 "RUNNING" "RUNNING" "RUNNING" (by decide) (by decide)

/-- C7: whenever a poll returns a status whose uppercasing is `SUCCEEDED`,
`FAILED` or `CANCELLED` (any letter case), the stream emits that
iteration's update and terminates without polling again: from any loop
state, the remaining poll results are never consumed. -/
theorem claim_C7 (clearOnUpdate : Bool) (lastLogLength : Nat) (status logContent : String)
    (rest : List PollResult) (h : statusTerminal status = true) :
    streamAux clearOnUpdate lastLogLength (.ok status logContent :: rest) =
      [mkYieldData clearOnUpdate lastLogLength status logContent] := by
  simp only [streamAux, mkYieldData_is_complete, h, if_true]

/-- C7 witness: a lowercase terminal status with a further poll available. -/
theorem claim_C7_witness :
    streamAux false 0 (.ok "succeeded" "done" :: [.ok "RUNNING" "x"]) =
      [mkYieldData false 0 "succeeded" "done"] :=
  claim_C7 false 0 "succeeded" "done" [.ok "RUNNING" "x"] (by decide)

/-- C8: if a poll raises a transport error, the stream yields exactly one
synthetic update carrying the error text and status `ERROR` marked
complete, and ends with no further polling and no retry: from any loop
state, the remaining poll results are never consumed. -/
theorem claim_C8 (clearOnUpdate : Bool) (lastLogLength : Nat) (msg : String)
    (rest : List PollResult) :
    streamAux clearOnUpdate lastLogLength (.err msg :: rest) =
      [{ log := "Error polling reload status: " ++ msg ++ "\n", status := "ERROR",
         is_new := true, is_complete := true }] := rfl

/-- C9 counterexample: on HTTP status 200 with a response body lacking an
identifier, `reload_app` does not fail — it returns the absent identifier
(`None`) instead of raising. -/
theorem claim_C9_counterexample :
    reload_app 200 none = Except.ok none ∧ (reload_app 200 none).isOk = true :=
  ⟨rfl, rfl⟩

/-- C9 amended: `reload_app` returns the identifier carried by the response
body (absent or not) whenever `raise_for_status` does not raise (status
outside `[400, 600)`), and fails with the HTTP error exactly on a status in
`[400, 600)`; a missing identifier is returned as `None`, not an error. -/
theorem claim_C9_amended (st1 st2 : Nat) (rid1 rid2 : Option String)
    (h1 : st1 < 400 ∨ 600 ≤ st1) (h2 : 400 ≤ st2 ∧ st2 < 600) :
    reload_app st1 rid1 = .ok rid1 ∧ reload_app st2 rid2 = .error (.httpError st2) := by
  constructor
  · unfold reload_app raiseForStatus
    rw [if_neg (by omega)]
  · unfold reload_app raiseForStatus
    rw [if_pos h2]

/-- C9 amended witness. -/
theorem claim_C9_witness :
    reload_app 201 (some "rid") = .ok (some "rid") ∧
      reload_app 500 none = .error (.httpError 500) :=
  claim_C9_amended 201 500 (some "rid") none (by omega) (by omega)

/-- C2 counterexample: with no caller-supplied order list,
`combine_tabs_from_files` processes the files in descending (not
ascending) order of the first three characters of the stem, while the
fetch-display path `get_app_script_tabbed` sorts ascending (not
descending). -/
theorem claim_C2_counterexample :
    combineDefaultOrdered [("0___A", "a"), ("1___B", "b")] =
        [("1___B", "b"), ("0___A", "a")] ∧
      getOrderedFiles [("0___A", "a"), ("1___B", "b")] =
        [("0___A", "a"), ("1___B", "b")] ∧
      ([("1___B", "b"), ("0___A", "a")] : List (String × String)) ≠
        [("0___A", "a"), ("1___B", "b")] := by decide

/-- C2 amended: with no caller-supplied order list,
`combine_tabs_from_files` processes the per-tab files in descending order
of the first three characters of the filename stem (its ordered list is a
permutation of the files, sorted descending on `sortKey3`), and the
fetch-display path `get_app_script_tabbed` instead sorts ascending on that
same key. -/
theorem claim_C2_amended (files : List (String × String)) :
    (combineDefaultOrdered files).Pairwise
        (fun a b => pyStrLe (sortKey3 b) (sortKey3 a) = true) ∧
      (combineDefaultOrdered files).Perm files ∧
      (getOrderedFiles files).Pairwise
        (fun a b => pyStrLe (sortKey3 a) (sortKey3 b) = true) ∧
      (getOrderedFiles files).Perm files := by
  refine ⟨?_, pySorted_perm _ files, ?_, pySorted_perm _ files⟩
  · exact pySorted_pairwise combineDescLe
      (fun a b => pyStrLe_total (sortKey3 b) (sortKey3 a))
      (fun a b c hab hbc => pyStrLe_trans _ _ _ hbc hab) files
  · exact pySorted_pairwise combineAscLe
      (fun a b => pyStrLe_total (sortKey3 a) (sortKey3 b))
      (fun a b c hab hbc => pyStrLe_trans _ _ _ hab hbc) files

theorem foldl_multipleApps_data (t : List CatalogApp) :
    ∀ acc : String, ∃ z,
      (List.foldl (fun acc app => acc ++ "\n" ++ app.name ++ " (" ++ app.resourceId ++ ")")
          acc t).data = acc.data ++ z := by
  induction t with
  | nil => intro acc; exact ⟨[], by simp⟩
  | cons b t ih =>
    intro acc
    rcases ih (acc ++ "\n" ++ b.name ++ " (" ++ b.resourceId ++ ")") with ⟨z, hz⟩
    refine ⟨"\n".data ++ b.name.data ++ " (".data ++ b.resourceId.data ++ ")".data ++ z, ?_⟩
    simp only [List.foldl_cons, hz, String.data_append, List.append_assoc]

theorem multipleAppsStr_data_of_mem (data : List CatalogApp) (app : CatalogApp)
    (h : app ∈ data) :
    ∃ x y, (multipleAppsStr data).data =
      x ++ ("\n" ++ app.name ++ " (" ++ app.resourceId ++ ")").data ++ y := by
  unfold multipleAppsStr
  suffices hgen : ∀ (d : List CatalogApp) (acc : String), app ∈ d → ∃ x y,
      (List.foldl (fun acc app => acc ++ "\n" ++ app.name ++ " (" ++ app.resourceId ++ ")")
          acc d).data = x ++ ("\n" ++ app.name ++ " (" ++ app.resourceId ++ ")").data ++ y by
    exact hgen data "" h
  intro d
  induction d with
  | nil => intro acc hm; cases hm
  | cons b t ih =>
    intro acc hm
    rcases List.mem_cons.1 hm with hb | hm
    · rcases foldl_multipleApps_data t (acc ++ "\n" ++ b.name ++ " (" ++ b.resourceId ++ ")")
        with ⟨z, hz⟩
      refine ⟨acc.data, z, ?_⟩
      rw [hb]
      simp only [List.foldl_cons, hz, String.data_append, List.append_assoc]
    · rcases ih (acc ++ "\n" ++ b.name ++ " (" ++ b.resourceId ++ ")") hm with ⟨x, y, hxy⟩
      exact ⟨x, y, by simpa using hxy⟩

/-- C5: resolving an application name that matches zero catalog entries
raises the not-found `ValueError`, and a name matching two or more entries
with no disambiguating identifier raises the ambiguity `ValueError` whose
message contains every candidate's name and resource identifier. -/
theorem claim_C5 (appName : String) (data : List CatalogApp)
    (spaceLookup : String → String × String) :
    (data = [] →
      get_app_by_name appName none data spaceLookup =
        .error (.valueError ("No app found with name " ++ appName))) ∧
    (1 < data.length →
      get_app_by_name appName none data spaceLookup =
          .error (.valueError (ambiguousMessage appName data)) ∧
        ∀ app ∈ data,
          List.IsInfix ("\n" ++ app.name ++ " (" ++ app.resourceId ++ ")").data
            (ambiguousMessage appName data).data) := by
  constructor
  · intro h
    subst h
    rfl
  · intro hlen
    have hne : data ≠ [] := by
      intro h
      rw [h] at hlen
      simp at hlen
    constructor
    · unfold get_app_by_name
      rw [if_neg hne, if_pos hlen]
    · intro app hmem
      rcases multipleAppsStr_data_of_mem data app hmem with ⟨x, y, hxy⟩
      refine ⟨"Multiple apps found similar or equal to ´".data ++ appName.data ++
        "´. \n            Please provide more specific app_name or bothapp_name & app_id to disambiguate.\n            Available apps: \n            ".data ++ x,
        y ++ "\n            ".data, ?_⟩
      simp only [ambiguousMessage, String.data_append, hxy, List.append_assoc]

/-- C5 witness at a concrete empty catalog and a concrete two-entry catalog. -/
theorem claim_C5_witness :
    (get_app_by_name "MyApp" none [] (fun _ => ("", "")) =
        .error (.valueError ("No app found with name " ++ "MyApp"))) ∧
    (get_app_by_name "MyApp" none
        [⟨"App One", "id1", "item1", ""⟩, ⟨"App Two", "id2", "item2", ""⟩]
        (fun _ => ("", "")) =
      .error (.valueError (ambiguousMessage "MyApp"
        [⟨"App One", "id1", "item1", ""⟩, ⟨"App Two", "id2", "item2", ""⟩]))) ∧
    List.IsInfix ("\n" ++ "App One" ++ " (" ++ "id1" ++ ")").data
      (ambiguousMessage "MyApp"
        [⟨"App One", "id1", "item1", ""⟩, ⟨"App Two", "id2", "item2", ""⟩]).data ∧
    List.IsInfix ("\n" ++ "App Two" ++ " (" ++ "id2" ++ ")").data
      (ambiguousMessage "MyApp"
        [⟨"App One", "id1", "item1", ""⟩, ⟨"App Two", "id2", "item2", ""⟩]).data := by
  refine ⟨(claim_C5 "MyApp" [] (fun _ => ("", ""))).1 rfl, ?_, ?_, ?_⟩
  · exact ((claim_C5 "MyApp" _ (fun _ => ("", ""))).2 (by decide)).1
  · exact ((claim_C5 "MyApp" _ (fun _ => ("", ""))).2 (by decide)).2
      ⟨"App One", "id1", "item1", ""⟩ (by decide)
  · exact ((claim_C5 "MyApp" _ (fun _ => ("", ""))).2 (by decide)).2
      ⟨"App Two", "id2", "item2", ""⟩ (by decide)

theorem pySplit_ne_nil (l : List Char) : pySplitTripleUnd l ≠ [] := by
  rw [pySplitTripleUnd.eq_def]
  split
  · simp
  · rename_i c c2 h
    cases pySplitTripleUnd c2 <;> simp
  · simp

theorem pySplit_no_sep : ∀ l : List Char, hasTripleUnd l = false → pySplitTripleUnd l = [l] := by
  intro l
  induction l with
  | nil => intro _; rfl
  | cons c rest ih =>
    intro h
    rw [hasTripleUnd.eq_def] at h
    split at h
    · exact absurd h (by simp)
    · rename_i l1 cx restx hno heq
      injection heq with e1 e2
      subst e1
      subst e2
      rw [pySplitTripleUnd.eq_def]
      split
      · rename_i l2 r heq2
        injection heq2 with f1 f2
        exact (hno r f1 f2).elim
      · rename_i l2 cy resty hno2 heq2
        injection heq2 with f1 f2
        subst f1
        subst f2
        rw [ih h]
      · rename_i l2 heq2
        exact absurd heq2 (by simp)
    · rename_i l1 heq
      exact absurd heq (by simp)

theorem getRenderPart_error_eq (f : String × String) (e : PyErr)
    (h : getRenderPart f = .error e) : e = .indexError := by
  simp only [getRenderPart] at h
  by_cases hc : pyRstripS f.2 = ""
  · rw [if_pos hc] at h
    cases h
  · rw [if_neg hc] at h
    cases hsp : pySplitTripleUnd f.1.data with
    | nil =>
      rw [hsp] at h
      cases h
      rfl
    | cons g gs =>
      cases gs with
      | nil =>
        rw [hsp] at h
        cases h
        rfl
      | cons g2 gs2 =>
        rw [hsp] at h
        cases h

theorem getPartsList_error_of_mem :
    ∀ (l : List (String × String)) (f : String × String), f ∈ l →
      pyRstripS f.2 ≠ "" → hasTripleUnd f.1.data = false →
      getPartsList l = .error .indexError := by
  intro l
  induction l with
  | nil => intro f hf; cases hf
  | cons a t ih =>
    intro f hf hc hs
    rcases List.mem_cons.1 hf with hfa | hft
    · have ha : getRenderPart a = .error .indexError := by
        rw [← hfa]
        unfold getRenderPart
        rw [if_neg hc, pySplit_no_sep f.1.data hs]
      rw [getPartsList, ha]
    · cases hr : getRenderPart a with
      | error e =>
        rw [getPartsList, hr, getRenderPart_error_eq a e hr]
      | ok o =>
        cases o with
        | none =>
          rw [getPartsList, hr]
          exact ih f hft hc hs
        | some p =>
          rw [getPartsList, hr, ih f hft hc hs]

/-- C10: `get_app_script_tabbed` is not total over the directories the
fetch path produces: any directory containing a `.qvs` file with non-empty
(after `rstrip`) content whose filename stem lacks the `'___'` separator —
in particular the `Main.qvs` file written for the leading untitled segment
— makes the unguarded `tab_name.split('___')[1]` index past the end of a
one-element list, so the whole operation fails with the unchecked
`IndexError` instead of emitting that tab. -/
theorem claim_C10 (files : List (String × String)) (f : String × String)
    (hmem : f ∈ files) (hcontent : pyRstripS f.2 ≠ "")
    (hsep : hasTripleUnd f.1.data = false) :
    get_app_script_tabbed files = .error .indexError := by
  have hne : files ≠ [] := by
    intro h
    rw [h] at hmem
    cases hmem
  have hmem2 : f ∈ getOrderedFiles files :=
    ((pySorted_perm combineAscLe files).mem_iff).2 hmem
  unfold get_app_script_tabbed
  rw [if_neg hne, getPartsList_error_of_mem (getOrderedFiles files) f hmem2 hcontent hsep]

/-- C10 witness: the directory `{ Main.qvs ↦ "x" }` that `get` writes for a
script whose leading segment is untitled. -/
theorem claim_C10_witness :
    get_app_script_tabbed [("Main", "x")] = .error .indexError :=
  claim_C10 [("Main", "x")] ("Main", "x") (by decide) (by decide) (by decide)

/-- C3 counterexample: during reconstruction by `combine_tabs_from_files`,
a non-`Main` tab is emitted as `///$tab <full stem>` — the index prefix is
NOT removed (the claim expects `///$tab X`, the code emits
`///$tab 0___X`). -/
theorem claim_C3_counterexample :
    combine_tabs_from_files [("Main", "m"), ("0___X", "x")] none =
        Except.ok "m\r\r///$tab 0___X\rx" ∧
      ("m\r\r///$tab 0___X\rx" : String) ≠ "m\r\r///$tab X\rx" :=
  ⟨by rfl, by decide⟩

/-- C3 amended: in `combine_tabs_from_files`, the first tab's content is
emitted without a marker when its key is exactly `Main` and it is first in
the chosen order, and every OTHER tab is emitted as a marker line
`///$tab <full stem>` followed by the content — the stem as-is, with the
index prefix retained (not removed as the claim states). -/
theorem claim_C3_amended (c : String) (rest : List (String × String))
    (h1 : ("Main", c) ∉ rest) (h2 : pyStripS c ≠ "") :
    combineRenderList (("Main", c) :: rest) =
      normalizeS (pyStripS c) ::
        rest.filterMap (fun f =>
          if pyStripS f.2 = "" then none
          else some ("///$tab " ++ f.1 ++ "\r" ++ normalizeS (pyStripS f.2))) := by
  have hhead : combineRenderPart (some ("Main", c)) ("Main", c) =
      some (normalizeS (pyStripS c)) := by
    unfold combineRenderPart
    rw [if_neg h2, if_pos ⟨rfl, rfl⟩]
  have htail : ∀ f ∈ rest, combineRenderPart (some ("Main", c)) f =
      (if pyStripS f.2 = "" then none
       else some ("///$tab " ++ f.1 ++ "\r" ++ normalizeS (pyStripS f.2))) := by
    intro f hf
    unfold combineRenderPart
    by_cases hc2 : pyStripS f.2 = ""
    · rw [if_pos hc2, if_pos hc2]
    · rw [if_neg hc2, if_neg hc2, if_neg]
      rintro ⟨hMain, hEq⟩
      apply h1
      have hfe : f = ("Main", c) := Option.some.inj hEq
      rw [← hfe]
      exact hf
  unfold combineRenderList
  rw [List.head?_cons, List.filterMap_cons_some hhead, List.filterMap_congr htail]

/-- C3 amended witness. -/
theorem claim_C3_witness :
    combineRenderList [("Main", "m"), ("0___X", "x")] =
      normalizeS (pyStripS "m") ::
        [(("0___X" : String), ("x" : String))].filterMap (fun f =>
          if pyStripS f.2 = "" then none
          else some ("///$tab " ++ f.1 ++ "\r" ++ normalizeS (pyStripS f.2))) :=
  claim_C3_amended "m" [("0___X", "x")] (by decide) (by decide)

theorem notCRLF_of_not_space (c : Char) (h : isPySpace c = false) : notCRLF c = true := by
  simp only [isPySpace, Bool.or_eq_false_iff, decide_eq_false_iff_not] at h
  simp only [notCRLF, Bool.not_eq_true', Bool.or_eq_false_iff, decide_eq_false_iff_not]
  tauto

theorem matchMarkerHere_none_of_head (l : List Char) (h : l.head? ≠ some '/') :
    matchMarkerHere l = none := by
  unfold matchMarkerHere
  rw [if_neg]
  intro htake
  apply h
  cases l with
  | nil => exact absurd htake (by decide)
  | cons a t =>
    have ha : a = '/' := by
      have := congrArg List.head? htake
      simpa [tabMarkerLit] using this
    rw [List.head?_cons, ha]

theorem findMarkersAux_out (s : List Char) (pos : Nat) (h : s.length ≤ pos) :
    ∀ fuel, findMarkersAux s fuel pos = [] := by
  intro fuel
  cases fuel with
  | zero => rfl
  | succ n => simp [findMarkersAux, h]

theorem findMarkersAux_no_slash (s : List Char) :
    ∀ fuel pos, (∀ i, pos ≤ i → i < s.length → s[i]? ≠ some '/') →
      findMarkersAux s fuel pos = [] := by
  intro fuel
  induction fuel with
  | zero => intro pos _; rfl
  | succ m ih =>
    intro pos h
    by_cases hlen : s.length ≤ pos
    · exact findMarkersAux_out s pos hlen _
    · have hm : matchMarkerHere (s.drop pos) = none := by
        apply matchMarkerHere_none_of_head
        rw [List.head?_drop]
        exact h pos le_rfl (by omega)
      simp only [findMarkersAux, hlen, ite_false, hm]
      exact ih (pos + 1) (fun i hi1 hi2 => h i (by omega) hi2)

theorem findMarkersAux_skip (s : List Char) :
    ∀ (k fuel pos : Nat), (∀ i, pos ≤ i → i < pos + k → s[i]? ≠ some '/') →
      findMarkersAux s (k + fuel) pos = findMarkersAux s fuel (pos + k) := by
  intro k
  induction k with
  | zero => intro fuel pos _; simp
  | succ m ih =>
    intro fuel pos h
    by_cases hlen : s.length ≤ pos
    · rw [findMarkersAux_out s pos hlen, findMarkersAux_out s (pos + (m + 1)) (by omega)]
    · have hm : matchMarkerHere (s.drop pos) = none := by
        apply matchMarkerHere_none_of_head
        rw [List.head?_drop]
        exact h pos le_rfl (by omega)
      have harith : m + 1 + fuel = (m + fuel) + 1 := by omega
      rw [harith]
      simp only [findMarkersAux, hlen, ite_false, hm]
      rw [ih fuel (pos + 1) (fun i h1 h2 => h i (by omega) (by omega))]
      congr 1
      omega

theorem takeWhile_append_all (p : Char → Bool) :
    ∀ (a b : List Char), (∀ c ∈ a, p c = true) → (a ++ b).takeWhile p = a ++ b.takeWhile p := by
  intro a b h
  induction a with
  | nil => rfl
  | cons x xs ih =>
    have hx : p x = true := h x (List.mem_cons_self x xs)
    simp only [List.cons_append, List.takeWhile_cons, hx, ite_true]
    rw [ih (fun c hc => h c (List.mem_cons_of_mem x hc))]

theorem findGroupStart_one (x c0 : Char) (t : List Char) (hb : notCRLF c0 = true) :
    findGroupStart (x :: c0 :: t) 1 = some 1 := by
  have h1 : findGroupStart (x :: c0 :: t) (0 + 1) = some 1 := by
    simp only [findGroupStart]
    rw [List.getElem?_cons_succ, List.getElem?_cons_zero]
    simp [hb]
  simpa using h1

theorem matchMarkerHere_at_marker (n rest2 : List Char) (hn : n ≠ [])
    (hn2 : ∀ c ∈ n, isPySpace c = false) :
    matchMarkerHere
        ('/' :: '/' :: '/' :: '$' :: 't' :: 'a' :: 'b' :: ' ' :: (n ++ '\r' :: rest2)) =
      some (8, n) := by
  cases n with
  | nil => exact absurd rfl hn
  | cons c0 n2 =>
    have hc0 : isPySpace c0 = false := hn2 c0 (List.mem_cons_self c0 n2)
    have hb : notCRLF c0 = true := notCRLF_of_not_space c0 hc0
    have hmain : matchMarkerHere
        ('/' :: '/' :: '/' :: '$' :: 't' :: 'a' :: 'b' :: ' ' :: (c0 :: n2 ++ '\r' :: rest2)) =
        (match findGroupStart (' ' :: (c0 :: n2 ++ '\r' :: rest2))
            ((' ' :: (c0 :: n2 ++ '\r' :: rest2)).takeWhile isPySpace).length with
          | some k =>
            some (7 + k, ((' ' :: (c0 :: n2 ++ '\r' :: rest2)).drop k).takeWhile notCRLF)
          | none => none) := rfl
    rw [hmain]
    have hw : (' ' :: (c0 :: n2 ++ '\r' :: rest2)).takeWhile isPySpace = [' '] := by
      have hc0' := hc0
      simp only [isPySpace, Bool.or_eq_false_iff, decide_eq_false_iff_not] at hc0'
      simp [List.takeWhile_cons, isPySpace]
      tauto
    rw [hw]
    rw [show ([' '] : List Char).length = 1 from rfl]
    rw [List.cons_append]
    rw [findGroupStart_one ' ' c0 (n2 ++ '\r' :: rest2) hb]
    show some (7 + 1, ((' ' :: c0 :: (n2 ++ '\r' :: rest2)).drop 1).takeWhile notCRLF) =
      some (8, c0 :: n2)
    rw [show ((' ' :: c0 :: (n2 ++ '\r' :: rest2)).drop 1) = c0 :: (n2 ++ '\r' :: rest2) from rfl]
    rw [← List.cons_append]
    rw [takeWhile_append_all notCRLF (c0 :: n2) ('\r' :: rest2)
      (fun c hc => notCRLF_of_not_space c (hn2 c hc))]
    rw [show List.takeWhile notCRLF ('\r' :: rest2) = ([] : List Char) from rfl]
    simp

theorem findMarkersAux_step (s : List Char) (fuel pos : Nat) (hlt : pos < s.length) :
    findMarkersAux s (fuel + 1) pos =
      (match matchMarkerHere (s.drop pos) with
        | some (g, name) =>
          { mstart := pos, name := name, mend := pos + g + name.length } ::
            findMarkersAux s fuel (pos + g + name.length)
        | none => findMarkersAux s fuel (pos + 1)) := by
  rw [findMarkersAux]
  rw [if_neg (by omega)]

/-- C4 counterexample: `///$tab <name>` occurring mid-line (not as its own
line) DOES start a new tab — the pattern of line 127 has no line anchor.
The claim predicts a single `Main` tab holding the whole trimmed script. -/
theorem claim_C4_counterexample :
    parse_script_tabs "A ///$tab X\rB" = [("Main", "A"), ("0___X", "B")] ∧
      parse_script_tabs "A ///$tab X\rB" ≠ [("Main", "A ///$tab X\rB")] := by decide

/-- C4 amended: the split treats as a tab boundary every occurrence of
`///$tab` followed by whitespace and a name, wherever it occurs — including
mid-line after arbitrary slash-free text `a` that does not end in a line
break.  The text before the occurrence becomes `Main` (when non-empty after
stripping) and the text after the name's line becomes the tab's content. -/
theorem claim_C4_amended (a n b : List Char) (ha : '/' ∉ a) (hb : '/' ∉ b)
    (hn : n ≠ []) (hn2 : ∀ c ∈ n, isPySpace c = false ∧ c ≠ '/') :
    parseScriptTabsL
        (a ++ '/' :: '/' :: '/' :: '$' :: 't' :: 'a' :: 'b' :: ' ' :: (n ++ '\r' :: b)) =
      (if pyStripL a = [] then [] else [("Main".data, pyStripL a)]) ++
        [('0' :: '_' :: '_' :: '_' :: n, pyStripL b)] := by
  set M : List Char := '/' :: '/' :: '/' :: '$' :: 't' :: 'a' :: 'b' :: ' ' :: (n ++ '\r' :: b)
    with hM
  set s : List Char := a ++ M with hs
  have hs2 : s = (a ++ (['/', '/', '/', '$', 't', 'a', 'b', ' '] ++ n)) ++ ('\r' :: b) := by
    rw [hs, hM]
    simp [List.append_assoc]
  have hslen : s.length = a.length + 8 + n.length + 1 + b.length := by
    rw [hs2]
    simp [List.length_append]
    omega
  have hk : ∀ i, 0 ≤ i → i < 0 + a.length → s[i]? ≠ some '/' := by
    intro i _ hi heq
    rw [hs, List.getElem?_append_left (by omega)] at heq
    exact ha (List.getElem?_mem heq)
  have hrest : ∀ fuel, findMarkersAux s fuel (a.length + 8 + n.length) = [] := by
    intro fuel
    apply findMarkersAux_no_slash
    intro i hi1 _ heq
    rw [hs2] at heq
    have hlen8 : (a ++ (['/', '/', '/', '$', 't', 'a', 'b', ' '] ++ n)).length =
        a.length + 8 + n.length := by
      simp [List.length_append]
      omega
    rw [List.getElem?_append_right (by omega)] at heq
    have hmem : '/' ∈ '\r' :: b := List.getElem?_mem heq
    rcases List.mem_cons.1 hmem with h1 | h1
    · exact absurd h1 (by decide)
    · exact hb h1
  have hfm : findMarkersL s =
      [{ mstart := a.length, name := n, mend := a.length + 8 + n.length }] := by
    unfold findMarkersL
    rw [show s.length + 1 = a.length + (8 + n.length + b.length + 2) from by omega]
    rw [findMarkersAux_skip s a.length (8 + n.length + b.length + 2) 0 hk]
    rw [Nat.zero_add]
    rw [show 8 + n.length + b.length + 2 = (8 + n.length + b.length + 1) + 1 from by omega]
    rw [findMarkersAux_step s (8 + n.length + b.length + 1) a.length (by omega)]
    rw [show s.drop a.length = M from by rw [hs]; exact List.drop_left a M]
    rw [hM, matchMarkerHere_at_marker n b hn (fun c hc => (hn2 c hc).1)]
    dsimp only
    rw [hrest]
  have hdropE : s.drop (a.length + 8 + n.length) = '\r' :: b := by
    rw [hs2]
    rw [show a.length + 8 + n.length =
        (a ++ (['/', '/', '/', '$', 't', 'a', 'b', ' '] ++ n)).length from by
      simp [List.length_append]
      omega]
    exact List.drop_left _ _
  have hstrip : pyStripL ('\r' :: b) = pyStripL b := by
    unfold pyStripL pyLstrip
    rw [List.dropWhile_cons, if_pos (by decide)]
  rw [parseScriptTabsL]
  rw [hfm]
  dsimp only
  rw [show s.take a.length = a from by rw [hs]; exact List.take_left a M]
  rw [show tabsFromMarkers s 0
      [{ mstart := a.length, name := n, mend := a.length + 8 + n.length }] =
      [(keyOfTab 0 n, pyStripL (s.drop (a.length + 8 + n.length)))] from rfl]
  rw [hdropE, hstrip]
  rw [show keyOfTab 0 n = '0' :: '_' :: '_' :: '_' :: n from rfl]

/-- C4 amended witness: a mid-line marker after `"A "` (no line break). -/
theorem claim_C4_witness :
    parseScriptTabsL
        (['A', ' '] ++ '/' :: '/' :: '/' :: '$' :: 't' :: 'a' :: 'b' :: ' ' ::
          (['X'] ++ '\r' :: ['B'])) =
      (if pyStripL ['A', ' '] = [] then [] else [("Main".data, pyStripL ['A', ' '])]) ++
        [('0' :: '_' :: '_' :: '_' :: ['X'], pyStripL ['B'])] :=
  claim_C4_amended ['A', ' '] ['X'] ['B'] (by decide) (by decide) (by decide) (by decide)

/-- C1 counterexample: splitting, persisting and reconstructing with
`combine_tabs_from_files` (default ordering) does NOT yield the original
text modulo trimming, normalization and index-prefix removal: the tabs come
out in reverse order and the markers keep the `{i}___` prefix. -/
theorem claim_C1_counterexample :
    combine_tabs_from_files
        (save_tabs_as_qvs_files (parse_script_tabs "A\r///$tab X\rB\r///$tab Y\rC")) none =
      Except.ok "A\r\r///$tab 1___Y\rC\r\r///$tab 0___X\rB" ∧
    specReconstruction "A\r///$tab X\rB\r///$tab Y\rC" =
      "A\r\r///$tab X\rB\r\r///$tab Y\rC" ∧
    ("A\r\r///$tab 1___Y\rC\r\r///$tab 0___X\rB" : String) ≠
      "A\r\r///$tab X\rB\r\r///$tab Y\rC" :=
  ⟨by rfl, by rfl, by decide⟩

theorem pyStrLe_refl (a : List Char) : pyStrLe a a = true := by
  induction a with
  | nil => rfl
  | cons x xs ih => simp [pyStrLe, ih]

theorem dropWhile_idem (p : Char → Bool) (l : List Char) :
    List.dropWhile p (List.dropWhile p l) = List.dropWhile p l := by
  induction l with
  | nil => rfl
  | cons a as ih =>
    by_cases h : p a
    · simp [List.dropWhile_cons, h, ih]
    · simp [List.dropWhile_cons, h]

theorem dropWhile_head_false (p : Char → Bool) (l : List Char) :
    ∀ c, (List.dropWhile p l).head? = some c → p c = false := by
  induction l with
  | nil => intro c h; cases h
  | cons a as ih =>
    intro c h
    by_cases hp : p a
    · rw [List.dropWhile_cons, if_pos hp] at h
      exact ih c h
    · rw [List.dropWhile_cons, if_neg hp, List.head?_cons] at h
      cases h
      simpa using hp

theorem pyRstrip_front (l : List Char) : ∃ m, l = pyRstrip l ++ m := by
  rcases (List.dropWhile_suffix isPySpace (l := l.reverse)) with ⟨m, hm⟩
  refine ⟨m.reverse, ?_⟩
  unfold pyRstrip
  rw [← List.reverse_append, hm, List.reverse_reverse]

theorem head?_append_left (x m : List Char) (h : x ≠ []) : (x ++ m).head? = x.head? := by
  cases x with
  | nil => exact absurd rfl h
  | cons a t => rfl

theorem pyRstrip_head (l : List Char) :
    ∀ c, (pyRstrip l).head? = some c → l.head? = some c := by
  intro c h
  rcases pyRstrip_front l with ⟨m, hm⟩
  rw [hm, head?_append_left _ _ (by intro hnil; rw [hnil] at h; cases h)]
  exact h

theorem pyLstrip_eq_self (l : List Char)
    (h : ∀ c, l.head? = some c → isPySpace c = false) : pyLstrip l = l := by
  cases l with
  | nil => rfl
  | cons a t =>
    unfold pyLstrip
    rw [List.dropWhile_cons, if_neg]
    simp [h a rfl]

theorem pyRstrip_idem (l : List Char) : pyRstrip (pyRstrip l) = pyRstrip l := by
  unfold pyRstrip
  rw [List.reverse_reverse, dropWhile_idem]

theorem pyStripL_idem (l : List Char) : pyStripL (pyStripL l) = pyStripL l := by
  unfold pyStripL
  have h1 : pyLstrip (pyRstrip (pyLstrip l)) = pyRstrip (pyLstrip l) := by
    apply pyLstrip_eq_self
    intro c hc
    exact dropWhile_head_false isPySpace l c (pyRstrip_head (pyLstrip l) c hc)
  rw [h1, pyRstrip_idem]

theorem pyStripL_head (l : List Char) :
    ∀ c, (pyStripL l).head? = some c → isPySpace c = false := by
  intro c hc
  exact dropWhile_head_false isPySpace l c (pyRstrip_head (pyLstrip l) c hc)

theorem pyStripL_last (l : List Char) :
    ∀ c, (pyStripL l).getLast? = some c → isPySpace c = false := by
  intro c hc
  rw [← List.head?_reverse] at hc
  unfold pyStripL pyRstrip at hc
  rw [List.reverse_reverse] at hc
  exact dropWhile_head_false isPySpace _ c hc

theorem strip_eq_self_of_edges (l : List Char)
    (h1 : ∀ c, l.head? = some c → isPySpace c = false)
    (h2 : ∀ c, l.getLast? = some c → isPySpace c = false) : pyStripL l = l := by
  unfold pyStripL
  rw [pyLstrip_eq_self l h1]
  unfold pyRstrip
  have : List.dropWhile isPySpace l.reverse = l.reverse := by
    cases hr : l.reverse with
    | nil => rfl
    | cons a t =>
      rw [List.dropWhile_cons, if_neg]
      have ha : l.getLast? = some a := by
        rw [← List.head?_reverse, hr, List.head?_cons]
      simp [h2 a ha]
  rw [this, List.reverse_reverse]

theorem replaceCRLF_cons_ne (c : Char) (rest : List Char)
    (h : ∀ r, c = '\r' → rest = '\n' :: r → False) :
    replaceCRLF (c :: rest) = c :: replaceCRLF rest := by
  rw [replaceCRLF.eq_def]
  split
  · rename_i l r heq
    injection heq with e1 e2
    exact (h r e1 e2).elim
  · rename_i l c2 rest2 hno heq
    injection heq with e1 e2
    rw [e1, e2]
  · rename_i l heq
    exact absurd heq (by simp)

theorem replaceCRLF_ne_nil (l : List Char) (h : l ≠ []) : replaceCRLF l ≠ [] := by
  cases l with
  | nil => exact absurd rfl h
  | cons c rest =>
    cases rest with
    | nil =>
      rw [replaceCRLF_cons_ne c [] (by intro r _ hr; cases hr)]
      simp
    | cons c2 rest2 =>
      by_cases h12 : c = '\r' ∧ c2 = '\n'
      · rw [h12.1, h12.2]
        rw [show replaceCRLF ('\r' :: '\n' :: rest2) = '\r' :: replaceCRLF rest2 from rfl]
        simp
      · rw [replaceCRLF_cons_ne c (c2 :: rest2)
          (by intro r hc hr; injection hr with e1 _; exact h12 ⟨hc, e1⟩)]
        simp

theorem replaceCRLF_head (l : List Char) : (replaceCRLF l).head? = l.head? := by
  cases l with
  | nil => rfl
  | cons c rest =>
    cases rest with
    | nil =>
      rw [replaceCRLF_cons_ne c [] (by intro r _ hr; cases hr)]
      rfl
    | cons c2 rest2 =>
      by_cases h12 : c = '\r' ∧ c2 = '\n'
      · rw [h12.1, h12.2]
        rfl
      · rw [replaceCRLF_cons_ne c (c2 :: rest2)
          (by intro r hc hr; injection hr with e1 _; exact h12 ⟨hc, e1⟩)]
        rfl

theorem getLast?_cons_cons (a b : Char) (t : List Char) :
    (a :: b :: t).getLast? = (b :: t).getLast? := by
  rw [List.getLast?_cons_cons]

theorem replaceCRLF_last (l : List Char) :
    ∀ x, l.getLast? = some x → x ≠ '\n' → (replaceCRLF l).getLast? = some x := by
  induction l using replaceCRLF.induct with
  | case1 rest ih =>
    intro x hx hne
    cases rest with
    | nil =>
      simp at hx
      exact absurd hx.symm hne
    | cons c2 t2 =>
      rw [getLast?_cons_cons, getLast?_cons_cons] at hx
      rw [show replaceCRLF ('\r' :: '\n' :: c2 :: t2) = '\r' :: replaceCRLF (c2 :: t2) from rfl]
      have hr := ih x hx hne
      have hne2 : replaceCRLF (c2 :: t2) ≠ [] := replaceCRLF_ne_nil _ (by simp)
      cases hrc : replaceCRLF (c2 :: t2) with
      | nil => exact absurd hrc hne2
      | cons y ys =>
        rw [getLast?_cons_cons]
        rw [hrc] at hr
        exact hr
  | case2 c rest hno ih =>
    intro x hx hne
    rw [replaceCRLF_cons_ne c rest (by intro r hc hr; exact hno r hc hr)]
    cases rest with
    | nil =>
      simp at hx
      rw [hx]
      rfl
    | cons c2 t2 =>
      rw [getLast?_cons_cons] at hx
      have hr := ih x hx hne
      have hne2 : replaceCRLF (c2 :: t2) ≠ [] := replaceCRLF_ne_nil _ (by simp)
      cases hrc : replaceCRLF (c2 :: t2) with
      | nil => exact absurd hrc hne2
      | cons y ys =>
        rw [hrc] at hr
        rw [getLast?_cons_cons]
        exact hr
  | case3 =>
    intro x hx
    cases hx

theorem lfToCr_ne_lf (c : Char) : lfToCr c ≠ '\n' := by
  unfold lfToCr
  by_cases h : c = '\n'
  · rw [if_pos h]
    decide
  · rw [if_neg h]
    exact h

theorem normalizeL_no_lf (l : List Char) : '\n' ∉ normalizeL l := by
  intro h
  unfold normalizeL at h
  rcases List.mem_map.1 h with ⟨c, _, hc⟩
  exact lfToCr_ne_lf c hc

theorem replaceCRLF_of_no_lf (l : List Char) (h : '\n' ∉ l) : replaceCRLF l = l := by
  induction l with
  | nil => rfl
  | cons c rest ih =>
    rw [replaceCRLF_cons_ne c rest (by
      intro r _ hr
      exact h (by rw [hr]; exact List.mem_cons_of_mem c (List.mem_cons_self '\n' r)))]
    rw [ih (fun hm => h (List.mem_cons_of_mem c hm))]

theorem normalizeL_of_no_lf (l : List Char) (h : '\n' ∉ l) : normalizeL l = l := by
  unfold normalizeL
  rw [replaceCRLF_of_no_lf l h]
  have : ∀ x ∈ l, lfToCr x = x := by
    intro x hx
    unfold lfToCr
    rw [if_neg]
    intro he
    rw [he] at hx
    exact h hx
  calc l.map lfToCr = l.map id := List.map_congr_left this
    _ = l := List.map_id l

theorem normalizeL_idem (l : List Char) : normalizeL (normalizeL l) = normalizeL l :=
  normalizeL_of_no_lf (normalizeL l) (normalizeL_no_lf l)

theorem normalizeL_ne_nil (l : List Char) (h : l ≠ []) : normalizeL l ≠ [] := by
  unfold normalizeL
  intro hm
  exact replaceCRLF_ne_nil l h (List.map_eq_nil_iff.1 hm)

theorem normalizeL_nil_iff (l : List Char) : normalizeL l = [] ↔ l = [] := by
  constructor
  · intro h
    by_contra hne
    exact normalizeL_ne_nil l hne h
  · intro h
    rw [h]
    rfl

theorem normalizeL_head (l : List Char) : (normalizeL l).head? = l.head?.map lfToCr := by
  unfold normalizeL
  rw [List.head?_map, replaceCRLF_head]

theorem strip_normalize_of_stripped (l : List Char) (h : pyStripL l = l) :
    pyStripL (normalizeL l) = normalizeL l := by
  cases hl : l with
  | nil => rfl
  | cons c rest =>
    rw [← hl]
    apply strip_eq_self_of_edges
    · intro x hx
      rw [normalizeL_head] at hx
      cases hhead : l.head? with
      | none => rw [hhead] at hx; cases hx
      | some y =>
        rw [hhead] at hx
        rw [show (some y).map lfToCr = some (lfToCr y) from rfl] at hx
        have hy : isPySpace y = false := pyStripL_head l y (by rw [h, hhead])
        have hyn : y ≠ '\n' := by
          intro he
          rw [he] at hy
          exact absurd hy (by decide)
        have : lfToCr y = y := by
          unfold lfToCr
          rw [if_neg hyn]
        rw [this] at hx
        cases hx
        exact hy
    · intro x hx
      cases hlast : l.getLast? with
      | none =>
        rw [← List.head?_reverse] at hlast
        have : l.reverse = [] := by
          cases hr : l.reverse with
          | nil => rfl
          | cons a t => rw [hr, List.head?_cons] at hlast; cases hlast
        rw [List.reverse_eq_nil_iff] at this
        rw [this] at hl
        cases hl
      | some y =>
        have hy : isPySpace y = false := pyStripL_last l y (by rw [h, hlast])
        have hyn : y ≠ '\n' := by
          intro he
          rw [he] at hy
          exact absurd hy (by decide)
        have hrl : (replaceCRLF l).getLast? = some y := replaceCRLF_last l y hlast hyn
        unfold normalizeL at hx
        rw [List.getLast?_map, hrl] at hx
        rw [show (some y).map lfToCr = some (lfToCr y) from rfl] at hx
        have : lfToCr y = y := by
          unfold lfToCr
          rw [if_neg hyn]
        rw [this] at hx
        cases hx
        exact hy

theorem keyOfTab_sortKey3 (j : Nat) (hj : j ≤ 9) (n : List Char) (x : String) :
    sortKey3 (⟨keyOfTab j n⟩, x) = (Nat.repr j).data ++ ['_', '_'] := by
  interval_cases j <;> rfl

theorem reprKey3_lt_false (j j' : Nat) (h1 : j < j') (h2 : j' ≤ 9) :
    pyStrLe ((Nat.repr j').data ++ ['_', '_']) ((Nat.repr j).data ++ ['_', '_']) = false := by
  have hj : j ≤ 8 := by omega
  interval_cases j <;> interval_cases j' <;> decide

theorem reprKey3_le_Mai (j : Nat) (hj : j ≤ 9) :
    pyStrLe ((Nat.repr j).data ++ ['_', '_']) ['M', 'a', 'i'] = true := by
  interval_cases j <;> decide

theorem sortKey3_main (x : String) : sortKey3 ("Main", x) = ['M', 'a', 'i'] := rfl

theorem keyOfTab_ne_main (j : Nat) (hj : j ≤ 9) (n : List Char) :
    (⟨keyOfTab j n⟩ : String) ≠ "Main" := by
  intro h
  have hd : keyOfTab j n = "Main".data := congrArg String.data h
  have hh := congrArg List.head? hd
  interval_cases j <;> exact absurd (Option.some.inj hh) (by decide)

theorem tfm_mem (s : List Char) :
    ∀ (ms : List Marker) (i : Nat) (p : List Char × List Char),
      p ∈ tabsFromMarkers s i ms →
      (∃ j m, m ∈ ms ∧ i ≤ j ∧ j < i + ms.length ∧ p.1 = keyOfTab j m.name) ∧
        pyStripL p.2 = p.2 := by
  intro ms
  induction ms with
  | nil => intro i p hp; cases hp
  | cons m rest ih =>
    intro i p hp
    cases rest with
    | nil =>
      rw [show tabsFromMarkers s i [m] =
          [(keyOfTab i m.name, pyStripL (s.drop m.mend))] from rfl] at hp
      rcases List.mem_singleton.1 hp with rfl
      exact ⟨⟨i, m, List.mem_singleton.2 rfl, le_rfl, by simp, rfl⟩, pyStripL_idem _⟩
    | cons m2 rest2 =>
      rw [show tabsFromMarkers s i (m :: m2 :: rest2) =
          (keyOfTab i m.name, pyStripL ((s.drop m.mend).take (m2.mstart - m.mend))) ::
            tabsFromMarkers s (i + 1) (m2 :: rest2) from rfl] at hp
      rcases List.mem_cons.1 hp with rfl | htail
      · exact ⟨⟨i, m, List.mem_cons_self m _, le_rfl, by simp, rfl⟩, pyStripL_idem _⟩
      · rcases ih (i + 1) p htail with ⟨⟨j, mm, hmm, hle, hlt, hkey⟩, hstr⟩
        refine ⟨⟨j, mm, List.mem_cons_of_mem m hmm, by omega, ?_, hkey⟩, hstr⟩
        simp only [List.length_cons] at hlt ⊢
        omega

theorem tfm_pairwise (s : List Char) :
    ∀ (ms : List Marker) (i : Nat), i + ms.length ≤ 10 →
      (tabsFromMarkers s i ms).Pairwise
        (fun p q => pyStrLe (sortKey3 (⟨q.1⟩, normalizeS ⟨q.2⟩))
            (sortKey3 (⟨p.1⟩, normalizeS ⟨p.2⟩)) = false) := by
  intro ms
  induction ms with
  | nil => intro i _; exact List.Pairwise.nil
  | cons m rest ih =>
    intro i hle
    cases rest with
    | nil =>
      rw [show tabsFromMarkers s i [m] =
          [(keyOfTab i m.name, pyStripL (s.drop m.mend))] from rfl]
      exact List.pairwise_singleton _ _
    | cons m2 rest2 =>
      rw [show tabsFromMarkers s i (m :: m2 :: rest2) =
          (keyOfTab i m.name, pyStripL ((s.drop m.mend).take (m2.mstart - m.mend))) ::
            tabsFromMarkers s (i + 1) (m2 :: rest2) from rfl]
      refine List.pairwise_cons.2 ⟨?_, ih (i + 1) (by simp only [List.length_cons] at hle ⊢; omega)⟩
      intro q hq
      rcases (tfm_mem s (m2 :: rest2) (i + 1) q hq).1 with ⟨j, mm, _, hle2, hlt2, hkey⟩
      have hi9 : i ≤ 9 := by simp only [List.length_cons] at hle; omega
      have hj9 : j ≤ 9 := by simp only [List.length_cons] at hle hlt2; omega
      rw [hkey]
      rw [keyOfTab_sortKey3 j hj9, keyOfTab_sortKey3 i hi9]
      exact reprKey3_lt_false i j (by omega) hj9

theorem writeFile_fresh (dir : List (String × String)) (name content : String)
    (h : ∀ f ∈ dir, f.1 ≠ name) : writeFile dir name content = dir ++ [(name, content)] := by
  have hany : dir.any (fun f => f.1 = name) = false := by
    rw [List.any_eq_false]
    intro f hf
    simp [h f hf]
  simp [writeFile, hany]

theorem saveTabsAux_eq_map :
    ∀ (tabs dir : List (String × String)),
      (∀ t ∈ tabs, ∀ f ∈ dir, f.1 ≠ sanitizeS t.1) →
      tabs.Pairwise (fun t u => sanitizeS t.1 ≠ sanitizeS u.1) →
      saveTabsAux dir tabs = dir ++ tabs.map (fun t => (sanitizeS t.1, normalizeS t.2)) := by
  intro tabs
  induction tabs with
  | nil => intro dir _ _; simp [saveTabsAux]
  | cons t rest ih =>
    intro dir hfresh hpw
    rcases List.pairwise_cons.1 hpw with ⟨hhead, htail⟩
    rw [show saveTabsAux dir (t :: rest) =
        saveTabsAux (writeFile dir (sanitizeS t.1) (normalizeS t.2)) rest from rfl]
    rw [writeFile_fresh dir _ _ (fun f hf => hfresh t (List.mem_cons_self t rest) f hf)]
    rw [ih (dir ++ [(sanitizeS t.1, normalizeS t.2)]) ?_ htail]
    · simp [List.append_assoc]
    · intro u hu f hf
      rcases List.mem_append.1 hf with hfd | hfn
      · exact hfresh u (List.mem_cons_of_mem t hu) f hfd
      · rcases List.mem_singleton.1 hfn with rfl
        exact hhead u hu
  
theorem orderedInsertB_all_false (le : α → α → Bool) (x : α) :
    ∀ l, (∀ y ∈ l, le x y = false) → orderedInsertB le x l = l ++ [x] := by
  intro l h
  induction l with
  | nil => rfl
  | cons y ys ih =>
    have hy : le x y = false := h y (List.mem_cons_self y ys)
    simp only [orderedInsertB, hy, Bool.false_eq_true, ite_false, List.cons_append]
    rw [ih (fun z hz => h z (List.mem_cons_of_mem y hz))]

theorem pySorted_strictDesc (le : α → α → Bool) :
    ∀ l : List α, l.Pairwise (fun p q => le p q = false) → pySorted le l = l.reverse := by
  intro l
  induction l with
  | nil => intro _; rfl
  | cons x xs ih =>
    intro hpw
    rcases List.pairwise_cons.1 hpw with ⟨hx, hxs⟩
    rw [show pySorted le (x :: xs) = orderedInsertB le x (pySorted le xs) from rfl]
    rw [ih hxs]
    rw [orderedInsertB_all_false le x xs.reverse (fun y hy => hx y (List.mem_reverse.1 hy))]
    rw [List.reverse_cons]

theorem orderedInsertB_head_true (le : α → α → Bool) (x : α) (l : List α)
    (h : ∀ y, l.head? = some y → le x y = true) : orderedInsertB le x l = x :: l := by
  cases l with
  | nil => rfl
  | cons y ys => simp [orderedInsertB, h y rfl]

theorem sanitize_repr_digit (j : Nat) (hj : j ≤ 9) :
    sanitizeL (Nat.repr j).data = (Nat.repr j).data := by
  interval_cases j <;> rfl

theorem sanitize_keyOfTab (j : Nat) (hj : j ≤ 9) (n : List Char) (hn : sanitizeL n = n) :
    sanitizeL (keyOfTab j n) = keyOfTab j n := by
  unfold keyOfTab
  unfold sanitizeL
  rw [List.map_append]
  rw [show List.map sanitizeChar ('_' :: '_' :: '_' :: n) =
      '_' :: '_' :: '_' :: List.map sanitizeChar n from rfl]
  rw [show List.map sanitizeChar n = n from hn]
  rw [show List.map sanitizeChar (Nat.repr j).data = (Nat.repr j).data from
    sanitize_repr_digit j hj]

theorem sanitizeS_mk (k : List Char) : sanitizeS ⟨k⟩ = ⟨sanitizeL k⟩ := rfl

theorem stringMk_inj (a b : List Char) (h : (⟨a⟩ : String) = ⟨b⟩) : a = b :=
  congrArg String.data h

theorem stripS_normS_stripped (x : List Char) (h : pyStripL x = x) :
    pyStripS (normalizeS ⟨x⟩) = normalizeS ⟨x⟩ := by
  show (⟨pyStripL (normalizeL x)⟩ : String) = ⟨normalizeL x⟩
  rw [strip_normalize_of_stripped x h]

theorem normS_normS (x : List Char) : normalizeS (normalizeS ⟨x⟩) = normalizeS ⟨x⟩ := by
  show (⟨normalizeL (normalizeL x)⟩ : String) = ⟨normalizeL x⟩
  rw [normalizeL_idem]

theorem normS_eq_empty_iff (x : List Char) : normalizeS ⟨x⟩ = "" ↔ (⟨x⟩ : String) = "" := by
  constructor
  · intro h
    have := stringMk_inj _ _ (show (⟨normalizeL x⟩ : String) = ⟨[]⟩ from h)
    rw [(normalizeL_nil_iff x).1 this]
  · intro h
    have := stringMk_inj _ _ (show (⟨x⟩ : String) = ⟨[]⟩ from h)
    rw [this]
    rfl

theorem tfm_ne_nil (s : List Char) (i : Nat) (m : Marker) (ms : List Marker) :
    tabsFromMarkers s i (m :: ms) ≠ [] := by
  cases ms <;> simp [tabsFromMarkers]

theorem intercalate_single (sep a : String) : String.intercalate sep [a] = a := rfl

theorem combineRenderList_all_marked (l : List (String × String))
    (hnm : ∀ f ∈ l, f.1 ≠ "Main") :
    combineRenderList l = l.filterMap (fun f =>
      if pyStripS f.2 = "" then none
      else some ("///$tab " ++ f.1 ++ "\r" ++ normalizeS (pyStripS f.2))) := by
  unfold combineRenderList
  apply List.filterMap_congr
  intro f hf
  unfold combineRenderPart
  by_cases hc : pyStripS f.2 = ""
  · rw [if_pos hc, if_pos hc]
  · rw [if_neg hc, if_neg hc, if_neg]
    rintro ⟨h1, _⟩
    exact hnm f hf h1

theorem combineRenderList_main_head (c : String) (rest : List (String × String))
    (hcne : pyStripS c ≠ "") (hnomain : ∀ f ∈ rest, f.1 ≠ "Main") :
    combineRenderList (("Main", c) :: rest) =
      normalizeS (pyStripS c) :: rest.filterMap (fun f =>
        if pyStripS f.2 = "" then none
        else some ("///$tab " ++ f.1 ++ "\r" ++ normalizeS (pyStripS f.2))) := by
  unfold combineRenderList
  rw [List.head?_cons]
  have hhead : combineRenderPart (some ("Main", c)) ("Main", c) =
      some (normalizeS (pyStripS c)) := by
    unfold combineRenderPart
    rw [if_neg hcne, if_pos ⟨rfl, rfl⟩]
  rw [List.filterMap_cons_some hhead]
  congr 1
  apply List.filterMap_congr
  intro f hf
  unfold combineRenderPart
  by_cases hc2 : pyStripS f.2 = ""
  · rw [if_pos hc2, if_pos hc2]
  · rw [if_neg hc2, if_neg hc2, if_neg]
    rintro ⟨h1, _⟩
    exact hnomain f hf h1

/-- C1 amended: splitting a script, persisting the tabs and reconstructing
with `combine_tabs_from_files` under default ordering yields — provided the
script has at most 10 markers and the tab names survive filename
sanitization — the text built from the split tabs by emitting the `Main`
tab's normalized content first and unmarked (omitted when empty), then the
remaining tabs in reverse (descending-index) order, each as
`///$tab <full key>\r<content>` with the index prefix retained, joined by
`\r\r` — rather than the original order and prefix-free markers the claim
describes. -/
theorem claim_C1_amended (S : String)
    (h10 : (findMarkersL S.data).length ≤ 10)
    (hsafe : ∀ m ∈ findMarkersL S.data, sanitizeL m.name = m.name) :
    combine_tabs_from_files (save_tabs_as_qvs_files (parse_script_tabs S)) none =
      Except.ok (descendingRender (parse_script_tabs S)) := by
  cases hms : findMarkersL S.data with
  | nil =>
    have hparse : parse_script_tabs S = [("Main", (⟨pyStripL S.data⟩ : String))] := by
      simp only [parse_script_tabs, parseScriptTabsL]
      rw [hms]
      rfl
    rw [hparse]
    by_cases hcE : (⟨pyStripL S.data⟩ : String) = ""
    · rw [hcE]
      rfl
    · have hFS1 : pyStripS (normalizeS (⟨pyStripL S.data⟩ : String)) =
          normalizeS (⟨pyStripL S.data⟩ : String) :=
        stripS_normS_stripped (pyStripL S.data) (pyStripL_idem S.data)
      have hne : normalizeS (⟨pyStripL S.data⟩ : String) ≠ "" := by
        intro h
        exact hcE ((normS_eq_empty_iff (pyStripL S.data)).1 h)
      have hsave : save_tabs_as_qvs_files [("Main", (⟨pyStripL S.data⟩ : String))] =
          [("Main", normalizeS (⟨pyStripL S.data⟩ : String))] := by
        unfold save_tabs_as_qvs_files
        rw [saveTabsAux_eq_map [("Main", (⟨pyStripL S.data⟩ : String))] []
          (by intro t _ f hf; cases hf) (List.pairwise_singleton _ _)]
        simp [show sanitizeS "Main" = "Main" from by decide]
      rw [hsave]
      unfold combine_tabs_from_files
      rw [if_neg (by simp)]
      dsimp only
      rw [show combineDefaultOrdered [("Main", normalizeS (⟨pyStripL S.data⟩ : String))] =
          [("Main", normalizeS (⟨pyStripL S.data⟩ : String))] from rfl]
      rw [combineRenderList_main_head (normalizeS (⟨pyStripL S.data⟩ : String)) []
        (by rw [hFS1]; exact hne) (by intro f hf; cases hf)]
      rw [hFS1, normS_normS]
      simp only [descendingRender, if_true]
      rw [if_neg hcE]
      rfl
  | cons m0 msRest =>
    have h10b : (m0 :: msRest).length ≤ 10 := by rw [← hms]; exact h10
    have hsafe2 : ∀ m ∈ m0 :: msRest, sanitizeL m.name = m.name := by
      intro m hm
      exact hsafe m (by rw [hms]; exact hm)
    have hparse : parse_script_tabs S =
        ((if pyStripL (S.data.take m0.mstart) = [] then []
          else [(("Main" : String), (⟨pyStripL (S.data.take m0.mstart)⟩ : String))]) ++
          (tabsFromMarkers S.data 0 (m0 :: msRest)).map
            (fun p => ((⟨p.1⟩ : String), (⟨p.2⟩ : String)))) := by
      simp only [parse_script_tabs, parseScriptTabsL]
      rw [hms]
      dsimp only
      rw [List.map_append]
      congr 1
      by_cases hf : pyStripL (S.data.take m0.mstart) = []
      · rw [if_pos hf, if_pos hf]
        rfl
      · rw [if_neg hf, if_neg hf]
        rfl
    set firstL := pyStripL (S.data.take m0.mstart) with hfirstL
    set ts := tabsFromMarkers S.data 0 (m0 :: msRest) with hts
    have hkey : ∀ p ∈ ts, ∃ j, j ≤ 9 ∧ ∃ nm, sanitizeL nm = nm ∧ p.1 = keyOfTab j nm := by
      intro p hp
      rcases (tfm_mem S.data (m0 :: msRest) 0 p (by rw [hts] at hp; exact hp)).1 with
        ⟨j, m, hmem, _, hlt, hk⟩
      have hlen := h10b
      refine ⟨j, ?_, m.name, hsafe2 m hmem, hk⟩
      simp only [List.length_cons] at hlen hlt
      omega
    have hstripped : ∀ p ∈ ts, pyStripL p.2 = p.2 := by
      intro p hp
      exact (tfm_mem S.data (m0 :: msRest) 0 p (by rw [hts] at hp; exact hp)).2
    have hpw : ts.Pairwise
        (fun p q => pyStrLe (sortKey3 ((⟨q.1⟩ : String), normalizeS ⟨q.2⟩))
          (sortKey3 ((⟨p.1⟩ : String), normalizeS ⟨p.2⟩)) = false) := by
      rw [hts]
      exact tfm_pairwise S.data (m0 :: msRest) 0 (by simpa using h10b)
    have hnomain : ∀ p ∈ ts, (⟨p.1⟩ : String) ≠ "Main" := by
      intro p hp
      rcases hkey p hp with ⟨j, hj, nm, _, hk⟩
      rw [hk]
      exact keyOfTab_ne_main j hj nm
    have hsan : ∀ p ∈ ts, sanitizeS (⟨p.1⟩ : String) = ⟨p.1⟩ := by
      intro p hp
      rcases hkey p hp with ⟨j, hj, nm, hnm, hk⟩
      rw [hk, sanitizeS_mk, sanitize_keyOfTab j hj nm hnm]
    have hsave : save_tabs_as_qvs_files (parse_script_tabs S) =
        (if firstL = [] then [] else [(("Main" : String), normalizeS ⟨firstL⟩)]) ++
          ts.map (fun p => ((⟨p.1⟩ : String), normalizeS ⟨p.2⟩)) := by
      rw [hparse]
      unfold save_tabs_as_qvs_files
      rw [saveTabsAux_eq_map _ [] (by intro t _ f hf; cases hf) ?_]
      · rw [List.nil_append, List.map_append]
        congr 1
        · by_cases hf : firstL = []
          · rw [if_pos hf, if_pos hf]
            rfl
          · rw [if_neg hf, if_neg hf]
            simp [show sanitizeS "Main" = "Main" from by decide]
        · rw [List.map_map]
          apply List.map_congr_left
          intro p hp
          show (sanitizeS (⟨p.1⟩ : String), normalizeS ⟨p.2⟩) = ((⟨p.1⟩ : String), normalizeS ⟨p.2⟩)
          rw [hsan p hp]
      · rw [List.pairwise_append]
        refine ⟨?_, ?_, ?_⟩
        · by_cases hf : firstL = []
          · rw [if_pos hf]
            exact List.Pairwise.nil
          · rw [if_neg hf]
            exact List.pairwise_singleton _ _
        · rw [List.pairwise_map]
          refine List.Pairwise.imp_of_mem ?_ hpw
          intro p q hp hq hR heq
          rw [hsan p hp, hsan q hq] at heq
          have hpq : p.1 = q.1 := stringMk_inj _ _ heq
          rw [show sortKey3 ((⟨p.1⟩ : String), normalizeS ⟨p.2⟩) =
              sortKey3 ((⟨q.1⟩ : String), normalizeS ⟨q.2⟩) from by rw [hpq]; rfl] at hR
          rw [pyStrLe_refl] at hR
          cases hR
        · intro x hx y hy
          by_cases hf : firstL = []
          · rw [if_pos hf] at hx
            cases hx
          · rw [if_neg hf] at hx
            rcases List.mem_singleton.1 hx with rfl
            rcases List.mem_map.1 hy with ⟨p, hp, rfl⟩
            show sanitizeS "Main" ≠ sanitizeS (⟨p.1⟩ : String)
            rw [hsan p hp, show sanitizeS "Main" = "Main" from by decide]
            rcases hkey p hp with ⟨j, hj, nm, _, hk⟩
            rw [hk]
            exact (keyOfTab_ne_main j hj nm).symm
    have hpwF : (ts.map (fun p => ((⟨p.1⟩ : String), normalizeS ⟨p.2⟩))).Pairwise
        (fun x y => combineDescLe x y = false) := by
      rw [List.pairwise_map]
      exact hpw
    have htailmarked :
        ((ts.map (fun p => ((⟨p.1⟩ : String), normalizeS ⟨p.2⟩))).reverse).filterMap
          (fun f => if pyStripS f.2 = "" then none
            else some ("///$tab " ++ f.1 ++ "\r" ++ normalizeS (pyStripS f.2))) =
        ((ts.map (fun p => ((⟨p.1⟩ : String), (⟨p.2⟩ : String)))).reverse).filterMap
          specMarkedFull := by
      rw [← List.map_reverse, ← List.map_reverse]
      rw [List.filterMap_map, List.filterMap_map]
      apply List.filterMap_congr
      intro p hp
      have hp2 : p ∈ ts := List.mem_reverse.1 hp
      have hstr := hstripped p hp2
      show (if pyStripS (normalizeS ⟨p.2⟩) = "" then none
          else some ("///$tab " ++ (⟨p.1⟩ : String) ++ "\r" ++
            normalizeS (pyStripS (normalizeS ⟨p.2⟩)))) =
        specMarkedFull ((⟨p.1⟩ : String), (⟨p.2⟩ : String))
      rw [stripS_normS_stripped p.2 hstr]
      unfold specMarkedFull
      by_cases hce : (⟨p.2⟩ : String) = ""
      · rw [if_pos ((normS_eq_empty_iff p.2).2 hce), if_pos hce]
      · rw [if_neg (fun h => hce ((normS_eq_empty_iff p.2).1 h)), if_neg hce, normS_normS]
    have htsne : ts.map (fun p => ((⟨p.1⟩ : String), normalizeS ⟨p.2⟩)) ≠ [] := by
      intro h
      exact tfm_ne_nil S.data 0 m0 msRest (by rw [← hts]; exact List.map_eq_nil_iff.1 h)
    rw [hsave, hparse]
    unfold combine_tabs_from_files
    by_cases hf : firstL = []
    · rw [if_pos hf, if_pos hf]
      rw [List.nil_append, List.nil_append]
      rw [if_neg htsne]
      dsimp only
      rw [show combineDefaultOrdered (ts.map (fun p => ((⟨p.1⟩ : String), normalizeS ⟨p.2⟩))) =
          (ts.map (fun p => ((⟨p.1⟩ : String), normalizeS ⟨p.2⟩))).reverse from
        pySorted_strictDesc combineDescLe _ hpwF]
      rw [combineRenderList_all_marked _ (by
        intro f hf2
        rcases List.mem_map.1 (List.mem_reverse.1 hf2) with ⟨p, hp, rfl⟩
        exact hnomain p hp)]
      rw [htailmarked]
      cases hc0 : ts.map (fun p => ((⟨p.1⟩ : String), (⟨p.2⟩ : String))) with
      | nil =>
        exact absurd (List.map_eq_nil_iff.1 hc0) (tfm_ne_nil S.data 0 m0 msRest)
      | cons t0 r0 =>
        have ht0 : t0.1 ≠ "Main" := by
          have hmem : t0 ∈ ts.map (fun p => ((⟨p.1⟩ : String), (⟨p.2⟩ : String))) := by
            rw [hc0]
            exact List.mem_cons_self _ _
          rcases List.mem_map.1 hmem with ⟨p, hp, rfl⟩
          exact hnomain p hp
        simp only [descendingRender]
        rw [if_neg ht0]
    · rw [if_neg hf, if_neg hf]
      rw [List.singleton_append, List.singleton_append]
      rw [if_neg (by simp)]
      dsimp only
      have hfstr : pyStripL firstL = firstL := by
        rw [hfirstL]
        exact pyStripL_idem _
      have hmkne : (⟨firstL⟩ : String) ≠ "" := by
        intro h
        exact hf (stringMk_inj _ _ h)
      have hcne : pyStripS (normalizeS (⟨firstL⟩ : String)) ≠ "" := by
        rw [stripS_normS_stripped firstL hfstr]
        intro h
        exact hmkne ((normS_eq_empty_iff firstL).1 h)
      rw [show combineDefaultOrdered (("Main", normalizeS (⟨firstL⟩ : String)) ::
          ts.map (fun p => ((⟨p.1⟩ : String), normalizeS ⟨p.2⟩))) =
          ("Main", normalizeS (⟨firstL⟩ : String)) ::
            (ts.map (fun p => ((⟨p.1⟩ : String), normalizeS ⟨p.2⟩))).reverse from by
        unfold combineDefaultOrdered
        rw [show pySorted combineDescLe (("Main", normalizeS (⟨firstL⟩ : String)) ::
            ts.map (fun p => ((⟨p.1⟩ : String), normalizeS ⟨p.2⟩))) =
            orderedInsertB combineDescLe ("Main", normalizeS (⟨firstL⟩ : String))
              (pySorted combineDescLe
                (ts.map (fun p => ((⟨p.1⟩ : String), normalizeS ⟨p.2⟩)))) from rfl]
        rw [pySorted_strictDesc combineDescLe _ hpwF]
        apply orderedInsertB_head_true
        intro y hy
        have hymem : y ∈ ts.map (fun p => ((⟨p.1⟩ : String), normalizeS ⟨p.2⟩)) :=
          List.mem_reverse.1 (List.mem_of_mem_head? hy)
        rcases List.mem_map.1 hymem with ⟨p, hp, rfl⟩
        rcases hkey p hp with ⟨j, hj, nm, _, hk⟩
        show pyStrLe (sortKey3 ((⟨p.1⟩ : String), normalizeS ⟨p.2⟩))
            (sortKey3 ("Main", normalizeS (⟨firstL⟩ : String))) = true
        rw [sortKey3_main, hk, keyOfTab_sortKey3 j hj]
        exact reprKey3_le_Mai j hj]
      rw [combineRenderList_main_head (normalizeS ⟨firstL⟩) _ hcne (by
        intro f hf2
        rcases List.mem_map.1 (List.mem_reverse.1 hf2) with ⟨p, hp, rfl⟩
        exact hnomain p hp)]
      rw [stripS_normS_stripped firstL hfstr, normS_normS]
      rw [htailmarked]
      simp only [descendingRender, if_true]
      rw [if_neg hmkne]
      rfl

/-- C1 amended witness at the spec's own two-marker example script. -/
theorem claim_C1_witness :
    combine_tabs_from_files
        (save_tabs_as_qvs_files (parse_script_tabs "A\r///$tab X\rB\r///$tab Y\rC")) none =
      Except.ok (descendingRender (parse_script_tabs "A\r///$tab X\rB\r///$tab Y\rC")) :=
  claim_C1_amended "A\r///$tab X\rB\r///$tab Y\rC" (by decide) (by decide)
